import Mathlib

/-!
# Verification of `static_pool` (`src/lib.rs`)

A shallow embedding of the Rust crate `static_pool`, a fixed-capacity object
pool, together with proofs of its specified properties.

The Rust type
```
pub struct StaticPool<T, const N: usize> {
    items: [T; N],
    free: [bool; N],
    len: usize,
}
```
is modelled by a structure carrying two lists (of length `N` in every state
the Rust type can represent; the predicate `StaticPool.WF` records those
length facts) and a natural-number counter.  Rust's `T: Default` bound is
modelled by `Inhabited` with its `default` element.  Methods that mutate
`&mut self` become functions returning the new state; `alloc`, which both
returns a value and mutates, returns a pair.

Naming: every Rust item keeps its name except the method `StaticPool::free`,
which is embedded as `StaticPool.release` because the name `StaticPool.free`
is taken by the structure field `free` (Rust keeps fields and methods in
separate namespaces; Lean does not).
-/

/-- State of `StaticPool<T, N>`: fields `items: [T; N]`, `free: [bool; N]`,
`len: usize` from `src/lib.rs` lines 19-23. -/
structure StaticPool (T : Type) (N : Nat) where
  items : List T
  free : List Bool
  len : Nat
deriving DecidableEq

/-- Well-formedness: the two arrays have length `N`, which in Rust is
guaranteed by the types `[T; N]` and `[bool; N]`. -/
def StaticPool.WF {T : Type} {N : Nat} (p : StaticPool T N) : Prop :=
  p.items.length = N ∧ p.free.length = N

instance {T : Type} {N : Nat} (p : StaticPool T N) : Decidable p.WF :=
  inferInstanceAs (Decidable (_ ∧ _))

/-- `StaticPool::new` (lines 31-37): all items default-constructed, all
`free` flags `true`, `len = 0`. -/
def StaticPool.new (T : Type) (N : Nat) [Inhabited T] : StaticPool T N :=
  { items := List.replicate N default
    free := List.replicate N true
    len := 0 }

/-- The loop body of `StaticPool::next_free_handle` (lines 40-46):
`for i in 0..N { if self.free[i] { self.free[i] = false; return Some(i + 1); } }`.
Scans the `free` flags from index `i` upward; on the first `true` flag it
clears the flag and returns the 1-based handle, otherwise falls through.
Returns the loop's result together with the flag array after the loop. -/
def scanLoop : List Bool → Nat → Option Nat × List Bool
  | [], _ => (none, [])
  | b :: rest, i =>
    if b then (some (i + 1), false :: rest)
    else
      let r := scanLoop rest (i + 1)
      (r.1, b :: r.2)

/-- `StaticPool::next_free_handle` (lines 39-49): run the scan loop from
index 0; if it finds no free flag the function returns `None` and the state
is unchanged. -/
def StaticPool.next_free_handle {T : Type} {N : Nat} (p : StaticPool T N) :
    Option Nat × StaticPool T N :=
  ((scanLoop p.free 0).1, { p with free := (scanLoop p.free 0).2 })

/-- `StaticPool::alloc` (lines 51-55):
`let handle = self.next_free_handle()?; self.items[handle - 1] = Default::default(); Some(handle)`. -/
def StaticPool.alloc {T : Type} {N : Nat} [Inhabited T] (p : StaticPool T N) :
    Option Nat × StaticPool T N :=
  let r := p.next_free_handle
  match r.1 with
  | some handle => (some handle, { r.2 with items := r.2.items.set (handle - 1) default })
  | none => (none, r.2)

/-- `StaticPool::free` (lines 57-63), renamed `release` (see the module
comment): `if handle > 0 && handle <= N { if !self.free[handle - 1]
{ self.free[handle - 1] = true; } }`.  The in-bounds array read
`self.free[handle - 1]` is embedded as `p.free[handle - 1]? = some false`. -/
def StaticPool.release {T : Type} {N : Nat} (p : StaticPool T N)
    (handle : Nat) : StaticPool T N :=
  if handle > 0 ∧ handle ≤ N then
    if p.free[handle - 1]? = some false then
      { p with free := p.free.set (handle - 1) true }
    else p
  else p

/-- `StaticPool::get` (lines 65-71): returns the stored item iff
`handle > 0 && handle <= N && !self.free[handle - 1]`.  The returned
reference `&self.items[handle - 1]` is embedded as the value
`p.items[handle - 1]?` (which is `some _` whenever the state is `WF`). -/
def StaticPool.get {T : Type} {N : Nat} (p : StaticPool T N)
    (handle : Nat) : Option T :=
  if handle > 0 ∧ handle ≤ N ∧ p.free[handle - 1]? = some false then
    p.items[handle - 1]?
  else none

/-- `StaticPool::get_mut` (lines 73-79): same validity test as `get`; the
mutable reference is embedded by its read-out value (writing through it is
`StaticPool.write` below). -/
def StaticPool.get_mut {T : Type} {N : Nat} (p : StaticPool T N)
    (handle : Nat) : Option T :=
  if handle > 0 ∧ handle ≤ N ∧ p.free[handle - 1]? = some false then
    p.items[handle - 1]?
  else none

/-- Writing a value `v` through the mutable reference obtained from
`get_mut` (as in `*pool.get_mut(handle).unwrap() = v;`): when `get_mut`
returns a reference the referenced slot is overwritten, otherwise there is
no reference to write through and the state is unchanged. -/
def StaticPool.write {T : Type} {N : Nat} (p : StaticPool T N)
    (handle : Nat) (v : T) : StaticPool T N :=
  if (p.get_mut handle).isSome then
    { p with items := p.items.set (handle - 1) v }
  else p

/-- `k` consecutive `alloc()` calls, keeping only the final state. -/
def iterAlloc {T : Type} {N : Nat} [Inhabited T] :
    Nat → StaticPool T N → StaticPool T N
  | 0, p => p
  | k + 1, p => ((iterAlloc k p).alloc).2

/-- A single mutating operation on the pool, used to state properties that
hold "across other operations". -/
inductive Op (T : Type) where
  | alloc : Op T
  | release : Nat → Op T
  | write : Nat → T → Op T
deriving DecidableEq

/-- Apply one operation to a pool state. -/
def applyOp {T : Type} {N : Nat} [Inhabited T] (p : StaticPool T N) :
    Op T → StaticPool T N
  | Op.alloc => (p.alloc).2
  | Op.release h => p.release h
  | Op.write h v => p.write h v

/-- Apply a sequence of operations to a pool state, left to right. -/
def applyOps {T : Type} {N : Nat} [Inhabited T] (p : StaticPool T N) :
    List (Op T) → StaticPool T N
  | [] => p
  | op :: rest => applyOps (applyOp p op) rest

/-- Pool states reachable from `StaticPool.new` by the mutating API
(`alloc`, `free`/`release`, and writes through `get_mut`). -/
inductive Reachable {T : Type} {N : Nat} [Inhabited T] :
    StaticPool T N → Prop where
  | new : Reachable (StaticPool.new T N)
  | alloc {p : StaticPool T N} : Reachable p → Reachable (p.alloc).2
  | release {p : StaticPool T N} (h : Nat) : Reachable p → Reachable (p.release h)
  | write {p : StaticPool T N} (h : Nat) (v : T) : Reachable p → Reachable (p.write h v)

/-! ## Lemmas about the scan loop -/

/-- Unfolding: the loop body at a `true` flag. -/
theorem scanLoop_cons_true (rest : List Bool) (i : Nat) :
    scanLoop (true :: rest) i = (some (i + 1), false :: rest) := rfl

/-- Unfolding: the loop body at a `false` flag. -/
theorem scanLoop_cons_false (rest : List Bool) (i : Nat) :
    scanLoop (false :: rest) i =
      ((scanLoop rest (i + 1)).1, false :: (scanLoop rest (i + 1)).2) := rfl

/-- If every flag is `false` the scan finds nothing. -/
theorem scanLoop_fst_none {l : List Bool} (hl : ∀ b ∈ l, b = false) (i : Nat) :
    (scanLoop l i).1 = none := by
  induction l generalizing i with
  | nil => rfl
  | cons b rest ih =>
    have hb : b = false := hl b (List.mem_cons_self b rest)
    subst hb
    rw [scanLoop_cons_false]
    exact ih (fun x hx => hl x (List.mem_cons_of_mem _ hx)) (i + 1)

/-- If the scan finds nothing, every flag is `false`. -/
theorem all_false_of_scanLoop_fst_none {l : List Bool} {i : Nat}
    (h : (scanLoop l i).1 = none) : ∀ b ∈ l, b = false := by
  induction l generalizing i with
  | nil => intro b hb; cases hb
  | cons b rest ih =>
    intro x hx
    cases b with
    | true => rw [scanLoop_cons_true] at h; cases h
    | false =>
      rw [scanLoop_cons_false] at h
      rcases List.mem_cons.mp hx with hx | hx
      · exact hx
      · exact ih h x hx

/-- If the scan finds nothing, the flag array is unchanged. -/
theorem scanLoop_snd_of_none {l : List Bool} {i : Nat}
    (h : (scanLoop l i).1 = none) : (scanLoop l i).2 = l := by
  induction l generalizing i with
  | nil => rfl
  | cons b rest ih =>
    cases b with
    | true => rw [scanLoop_cons_true] at h; cases h
    | false =>
      rw [scanLoop_cons_false] at h ⊢
      exact congrArg (List.cons false) (ih h)

/-- Completeness of the scan: if index `j` holds the first `true` flag, the
scan started at counter `i` returns handle `i + j + 1`. -/
theorem scanLoop_fst_of_first_true {l : List Bool} {j : Nat}
    (hj : l[j]? = some true) (hmin : ∀ k < j, l[k]? = some false) (i : Nat) :
    (scanLoop l i).1 = some (i + j + 1) := by
  induction l generalizing i j with
  | nil => simp at hj
  | cons b rest ih =>
    cases j with
    | zero =>
      simp only [List.getElem?_cons_zero, Option.some.injEq] at hj
      subst hj
      rw [scanLoop_cons_true]
    | succ j' =>
      have hb : b = false := by
        have := hmin 0 (Nat.succ_pos j')
        simpa using this
      subst hb
      simp only [List.getElem?_cons_succ] at hj
      have hmin' : ∀ k < j', rest[k]? = some false := by
        intro k hk
        have := hmin (k + 1) (Nat.succ_lt_succ hk)
        simpa using this
      rw [scanLoop_cons_false, ih hj hmin' (i + 1)]
      congr 2
      omega

/-- Soundness of the scan: a successful scan started at counter `i`
returns the handle of the first `true` flag, and clears exactly that
flag. -/
theorem scanLoop_some_spec {l : List Bool} {i h : Nat}
    (hs : (scanLoop l i).1 = some h) :
    i + 1 ≤ h ∧ h ≤ i + l.length ∧ l[h - 1 - i]? = some true ∧
      (∀ k < h - 1 - i, l[k]? = some false) ∧
      (scanLoop l i).2 = l.set (h - 1 - i) false := by
  induction l generalizing i with
  | nil => cases hs
  | cons b rest ih =>
    cases b with
    | true =>
      rw [scanLoop_cons_true] at hs ⊢
      simp only [Option.some.injEq] at hs
      subst hs
      refine ⟨Nat.le_refl _, by simp, ?_, ?_, ?_⟩
      · simp [Nat.sub_self]
      · intro k hk; omega
      · simp [Nat.sub_self, List.set]
    | false =>
      rw [scanLoop_cons_false] at hs ⊢
      obtain ⟨h1, h2, h3, h4, h5⟩ := ih hs
      have hgt : h - 1 - i = (h - 1 - (i + 1)) + 1 := by omega
      refine ⟨by omega, by simp only [List.length_cons]; omega, ?_, ?_, ?_⟩
      · rw [hgt]; simpa using h3
      · intro k hk
        cases k with
        | zero => simp
        | succ k' =>
          simp only [List.getElem?_cons_succ]
          exact h4 k' (by omega)
      · rw [hgt]
        simp only [List.set]
        exact congrArg (List.cons false) h5

/-! ## Lemmas about `alloc` -/

/-- `alloc` returns exactly what the scan loop of `next_free_handle`
returns. -/
theorem alloc_fst {T : Type} [Inhabited T] {N : Nat} (p : StaticPool T N) :
    (p.alloc).1 = (scanLoop p.free 0).1 := by
  unfold StaticPool.alloc StaticPool.next_free_handle
  cases (scanLoop p.free 0).1 <;> rfl

/-- When the scan fails, `alloc` reports `none` and leaves the state
unchanged. -/
theorem alloc_eq_of_scan_none {T : Type} [Inhabited T] {N : Nat}
    {p : StaticPool T N} (hs : (scanLoop p.free 0).1 = none) :
    p.alloc = (none, p) := by
  unfold StaticPool.alloc StaticPool.next_free_handle
  rw [hs, scanLoop_snd_of_none hs]

/-- Inversion for a successful `alloc`: the returned handle is the 1-based
index of the first `true` flag, that flag is cleared, the corresponding
item is reset to `default`, and `len` is unchanged. -/
theorem alloc_some_spec {T : Type} [Inhabited T] {N : Nat}
    {p : StaticPool T N} {h : Nat} (hs : (p.alloc).1 = some h) :
    1 ≤ h ∧ h ≤ p.free.length ∧ p.free[h - 1]? = some true ∧
      (∀ k < h - 1, p.free[k]? = some false) ∧
      (p.alloc).2 = { items := p.items.set (h - 1) default,
                      free := p.free.set (h - 1) false,
                      len := p.len } := by
  rw [alloc_fst] at hs
  obtain ⟨h1, h2, h3, h4, h5⟩ := scanLoop_some_spec hs
  simp only [Nat.sub_zero, Nat.zero_add] at h1 h2 h3 h4 h5
  refine ⟨h1, by omega, h3, h4, ?_⟩
  unfold StaticPool.alloc StaticPool.next_free_handle
  rw [hs, h5]

/-- Completeness for a successful `alloc`: if index `i` holds the first
free flag, `alloc` returns handle `i + 1`. -/
theorem alloc_fst_of_first_free {T : Type} [Inhabited T] {N : Nat}
    (p : StaticPool T N) {i : Nat} (hi : p.free[i]? = some true)
    (hmin : ∀ j < i, p.free[j]? = some false) :
    (p.alloc).1 = some (i + 1) := by
  rw [alloc_fst]
  have := scanLoop_fst_of_first_true hi hmin 0
  simpa using this

/-- When `alloc` fails every flag was already `false` and the state is
unchanged. -/
theorem alloc_none_spec {T : Type} [Inhabited T] {N : Nat}
    {p : StaticPool T N} (hs : (p.alloc).1 = none) :
    (p.alloc).2 = p ∧ ∀ b ∈ p.free, b = false := by
  rw [alloc_fst] at hs
  rw [alloc_eq_of_scan_none hs]
  exact ⟨rfl, all_false_of_scanLoop_fst_none hs⟩

/-- When every flag is already `false`, `alloc` fails. -/
theorem alloc_fst_none_of_all_false {T : Type} [Inhabited T] {N : Nat}
    {p : StaticPool T N} (hl : ∀ b ∈ p.free, b = false) :
    (p.alloc).1 = none := by
  rw [alloc_fst]
  exact scanLoop_fst_none hl 0

/-- `alloc` preserves well-formedness. -/
theorem alloc_WF {T : Type} [Inhabited T] {N : Nat} {p : StaticPool T N}
    (hwf : p.WF) : ((p.alloc).2).WF := by
  cases hfst : (p.alloc).1 with
  | none => rw [(alloc_none_spec hfst).1]; exact hwf
  | some h =>
    obtain ⟨-, -, -, -, h5⟩ := alloc_some_spec hfst
    rw [h5]
    exact ⟨by simpa using hwf.1, by simpa using hwf.2⟩

/-! ## Lemmas about `release`, `get` and `write` -/

/-- `release` touches neither `items` nor `len`. -/
theorem release_items_len {T : Type} {N : Nat} (p : StaticPool T N)
    (h : Nat) : (p.release h).items = p.items ∧ (p.release h).len = p.len := by
  unfold StaticPool.release
  split
  · split <;> exact ⟨rfl, rfl⟩
  · exact ⟨rfl, rfl⟩

/-- After `release h` with `h` in range, the flag of slot `h - 1` is
`true` (freed stays freed, occupied becomes freed). -/
theorem release_flag_self {T : Type} {N : Nat} {p : StaticPool T N}
    {h : Nat} (h1 : 1 ≤ h) (h2 : h ≤ N) (hlt : h - 1 < p.free.length) :
    (p.release h).free[h - 1]? = some true := by
  unfold StaticPool.release
  rw [if_pos ⟨h1, h2⟩]
  cases hflag : p.free[h - 1]? with
  | none =>
    rw [List.getElem?_eq_none_iff] at hflag
    omega
  | some b =>
    cases b with
    | false =>
      rw [if_pos rfl]
      exact List.getElem?_set_self hlt
    | true =>
      rw [if_neg (by simp)]
      exact hflag

/-- `release h` leaves every flag other than `h - 1` unchanged. -/
theorem release_flag_ne {T : Type} {N : Nat} (p : StaticPool T N)
    (h : Nat) {j : Nat} (hj : j ≠ h - 1) :
    (p.release h).free[j]? = p.free[j]? := by
  unfold StaticPool.release
  split
  · split
    · exact List.getElem?_set_ne (fun he => hj he.symm)
    · rfl
  · rfl

/-- `release` with an out-of-range handle is exactly the identity. -/
theorem release_out_of_range {T : Type} {N : Nat} (p : StaticPool T N)
    {h : Nat} (hout : ¬(h > 0 ∧ h ≤ N)) : p.release h = p := by
  unfold StaticPool.release
  rw [if_neg hout]

/-- `release` preserves well-formedness. -/
theorem release_WF {T : Type} {N : Nat} {p : StaticPool T N} (hwf : p.WF)
    (h : Nat) : (p.release h).WF := by
  unfold StaticPool.release
  split
  · split
    · exact ⟨hwf.1, by simpa using hwf.2⟩
    · exact hwf
  · exact hwf

/-- `write` touches neither `free` nor `len`. -/
theorem write_free_len {T : Type} {N : Nat} (p : StaticPool T N)
    (h : Nat) (v : T) :
    (p.write h v).free = p.free ∧ (p.write h v).len = p.len := by
  unfold StaticPool.write
  split <;> exact ⟨rfl, rfl⟩

/-- `write` leaves every item other than `h - 1` unchanged. -/
theorem write_item_ne {T : Type} {N : Nat} (p : StaticPool T N)
    (h : Nat) (v : T) {j : Nat} (hj : j ≠ h - 1) :
    (p.write h v).items[j]? = p.items[j]? := by
  unfold StaticPool.write
  split
  · exact List.getElem?_set_ne (fun he => hj he.symm)
  · rfl

/-- `write` preserves well-formedness. -/
theorem write_WF {T : Type} {N : Nat} {p : StaticPool T N} (hwf : p.WF)
    (h : Nat) (v : T) : (p.write h v).WF := by
  unfold StaticPool.write
  split
  · exact ⟨by simpa using hwf.1, hwf.2⟩
  · exact hwf

/-- `get` returns `some` exactly on a valid handle of a well-formed pool:
`h` in range and slot `h - 1` occupied. -/
theorem get_isSome_iff {T : Type} {N : Nat} {p : StaticPool T N}
    (hwf : p.WF) (h : Nat) :
    (p.get h).isSome = true ↔ (1 ≤ h ∧ h ≤ N ∧ p.free[h - 1]? = some false) := by
  unfold StaticPool.get
  constructor
  · intro hs
    by_cases hc : h > 0 ∧ h ≤ N ∧ p.free[h - 1]? = some false
    · exact hc
    · rw [if_neg hc] at hs; cases hs
  · intro hc
    rw [if_pos ⟨hc.1, hc.2.1, hc.2.2⟩]
    have hlt : h - 1 < p.items.length := by rw [hwf.1]; omega
    simp [List.getElem?_eq_getElem hlt]

/-! ## The state after `k` allocations from a fresh pool -/

/-- The scan jumps over a block of `false` flags and fires at the first
`true` flag. -/
theorem scanLoop_replicate_false_append (k : Nat) (l : List Bool) (i : Nat) :
    scanLoop (List.replicate k false ++ true :: l) i =
      (some (i + k + 1), List.replicate k false ++ false :: l) := by
  induction k generalizing i with
  | zero => simp [scanLoop_cons_true]
  | succ k ih =>
    simp only [List.replicate_succ, List.cons_append, scanLoop_cons_false, ih (i + 1)]
    refine Prod.ext ?_ rfl
    simp only
    congr 2
    omega

/-- Prepending one more copy to a replicate block. -/
theorem replicate_succ_append {α : Type} (k : Nat) (a : α) (l : List α) :
    List.replicate (k + 1) a ++ l = List.replicate k a ++ a :: l := by
  rw [List.replicate_succ' k a, List.append_assoc]
  rfl

/-- What a successful scan makes `alloc` do, stated as a state equation. -/
theorem alloc_eq_of_scan_some {T : Type} [Inhabited T] {N : Nat}
    {p : StaticPool T N} {h : Nat} (hs : (scanLoop p.free 0).1 = some h) :
    p.alloc = (some h, { items := p.items.set (h - 1) default,
                         free := (scanLoop p.free 0).2,
                         len := p.len }) := by
  unfold StaticPool.alloc StaticPool.next_free_handle
  rw [hs]

/-- After `k ≤ N` allocations from `new`, the first `k` slots are occupied,
the rest are free, every item is `default`, and `len` is still `0`. -/
theorem iterAlloc_new {T : Type} [Inhabited T] {N : Nat} (k : Nat)
    (hk : k ≤ N) :
    iterAlloc k (StaticPool.new T N) =
      { items := List.replicate N default,
        free := List.replicate k false ++ List.replicate (N - k) true,
        len := 0 } := by
  induction k with
  | zero => simp [iterAlloc, StaticPool.new]
  | succ k ih =>
    have hk' : k ≤ N := Nat.le_of_succ_le hk
    have hm : N - k = (N - (k + 1)) + 1 := by omega
    show ((iterAlloc k (StaticPool.new T N)).alloc).2 = _
    rw [ih hk', replicate_succ_append, hm, List.replicate_succ]
    rw [alloc_eq_of_scan_some (by rw [scanLoop_replicate_false_append])]
    simp [scanLoop_replicate_false_append, List.set_replicate_self]

/-! ## The claims -/

/-- C1: For every pool of capacity `N` starting from the freshly
constructed state, the first `N` consecutive `alloc()` calls all succeed and
return the distinct handles `1, 2, ..., N` in increasing order (the call
after `k` previous allocations returns handle `k + 1`), and the `(N+1)`-th
`alloc()` call returns `none`. -/
theorem C1_capacity_bound {T : Type} [Inhabited T] {N k : Nat} (hk : k < N) :
    ((iterAlloc k (StaticPool.new T N)).alloc).1 = some (k + 1) ∧
    ((iterAlloc N (StaticPool.new T N)).alloc).1 = none := by
  constructor
  · rw [iterAlloc_new k (Nat.le_of_lt hk)]
    apply alloc_fst_of_first_free (i := k)
    · show (List.replicate k false ++ List.replicate (N - k) true)[k]? = some true
      rw [List.getElem?_append_right (by simp)]
      have h0 : 0 < N - k := by omega
      simp [List.getElem?_replicate, h0]
    · intro j hj
      show (List.replicate k false ++ List.replicate (N - k) true)[j]? = some false
      rw [List.getElem?_append_left (by simpa using hj)]
      simp [List.getElem?_replicate, hj]
  · rw [iterAlloc_new N (Nat.le_refl N)]
    apply alloc_fst_none_of_all_false
    intro b hb
    simp only [Nat.sub_self, List.replicate_zero, List.append_nil] at hb
    exact List.eq_of_mem_replicate hb

/-- Witness for C1 at `T = Nat`, `N = 2`, `k = 1`. -/
theorem C1_capacity_bound_witness :
    1 < 2 ∧ (((iterAlloc 1 (StaticPool.new Nat 2)).alloc).1 = some 2 ∧
      ((iterAlloc 2 (StaticPool.new Nat 2)).alloc).1 = none) :=
  ⟨by decide, C1_capacity_bound (by decide)⟩

/-- C2: first-fit.  If slot `i` is the lowest-index free slot then `alloc`
returns handle `i + 1`; in particular, if every slot below `k` is occupied,
then releasing handle `k` and allocating again yields handle `k`. -/
theorem C2_first_fit {T : Type} [Inhabited T] {N : Nat} (p : StaticPool T N)
    (hwf : p.WF) :
    (∀ i, p.free[i]? = some true → (∀ j < i, p.free[j]? = some false) →
        (p.alloc).1 = some (i + 1)) ∧
    (∀ k, 1 ≤ k → k ≤ N → (∀ j < k - 1, p.free[j]? = some false) →
        ((p.release k).alloc).1 = some k) := by
  constructor
  · intro i hi hmin
    exact alloc_fst_of_first_free p hi hmin
  · intro k hk1 hk2 hmin
    have hlt : k - 1 < p.free.length := by rw [hwf.2]; omega
    have hflag : (p.release k).free[k - 1]? = some true :=
      release_flag_self hk1 hk2 hlt
    have hminr : ∀ j < k - 1, (p.release k).free[j]? = some false := by
      intro j hj
      rw [release_flag_ne p k (by omega)]
      exact hmin j hj
    rw [alloc_fst_of_first_free (p.release k) hflag hminr]
    congr 1
    omega

/-- Witness for C2: in the full pool of size 2, releasing handle 1 and
allocating again returns handle 1. -/
theorem C2_first_fit_witness :
    (iterAlloc 2 (StaticPool.new Nat 2)).WF ∧
      (((iterAlloc 2 (StaticPool.new Nat 2)).release 1).alloc).1 = some 1 :=
  ⟨by decide, (C2_first_fit _ (by decide)).2 1 (by decide) (by decide)
    (fun j hj => absurd hj (Nat.not_lt_zero j))⟩

/-- Inversion of `get h = some v`: the handle was valid and `v` is the
stored item. -/
theorem get_some_inv {T : Type} {N : Nat} {p : StaticPool T N} {h : Nat}
    {v : T} (hget : p.get h = some v) :
    1 ≤ h ∧ h ≤ N ∧ p.free[h - 1]? = some false ∧ p.items[h - 1]? = some v := by
  unfold StaticPool.get at hget
  by_cases hc : h > 0 ∧ h ≤ N ∧ p.free[h - 1]? = some false
  · rw [if_pos hc] at hget
    exact ⟨hc.1, hc.2.1, hc.2.2, hget⟩
  · rw [if_neg hc] at hget
    cases hget

/-- On a valid handle, `get` reads the `items` array. -/
theorem get_eq_of_valid {T : Type} {N : Nat} (p : StaticPool T N) {h : Nat}
    (hc : 1 ≤ h ∧ h ≤ N ∧ p.free[h - 1]? = some false) :
    p.get h = p.items[h - 1]? := by
  unfold StaticPool.get
  rw [if_pos ⟨hc.1, hc.2.1, hc.2.2⟩]

/-- C3: whenever `alloc()` succeeds returning handle `h`, slot `h - 1` is
marked occupied, its stored value is reset to `default`, and an immediately
following `get h` returns that default value. -/
theorem C3_default_on_alloc {T : Type} [Inhabited T] {N : Nat}
    (p : StaticPool T N) (hwf : p.WF) (h : Nat)
    (hs : (p.alloc).1 = some h) :
    (p.alloc).2.free[h - 1]? = some false ∧
    (p.alloc).2.items[h - 1]? = some (default : T) ∧
    (p.alloc).2.get h = some (default : T) := by
  obtain ⟨h1, h2, h3, h4, h5⟩ := alloc_some_spec hs
  have hltf : h - 1 < p.free.length := by omega
  have hlti : h - 1 < p.items.length := by rw [hwf.1, ← hwf.2]; omega
  have hfree : (p.alloc).2.free[h - 1]? = some false := by
    rw [h5]
    exact List.getElem?_set_self hltf
  have hitems : (p.alloc).2.items[h - 1]? = some (default : T) := by
    rw [h5]
    exact List.getElem?_set_self hlti
  refine ⟨hfree, hitems, ?_⟩
  rw [get_eq_of_valid _ ⟨h1, by rw [← hwf.2]; exact h2, hfree⟩]
  exact hitems

/-- Witness for C3 at `T = Nat`, `N = 2`: the first allocation returns
handle 1 and reading it yields `0`, the default. -/
theorem C3_default_on_alloc_witness :
    ((StaticPool.new Nat 2).WF ∧ ((StaticPool.new Nat 2).alloc).1 = some 1) ∧
      ((StaticPool.new Nat 2).alloc).2.get 1 = some 0 :=
  ⟨⟨by decide, by decide⟩, (C3_default_on_alloc _ (by decide) 1 (by decide)).2.2⟩

/-- C4: `get` and `get_mut` return the slot's value exactly on a valid
handle (`1 ≤ h ≤ N` with slot `h - 1` occupied); on every other handle they
return `none` (and, being total functions, never fault). -/
theorem C4_handle_validity {T : Type} {N : Nat} (p : StaticPool T N)
    (hwf : p.WF) (h : Nat) :
    ((p.get h).isSome = true ↔ (1 ≤ h ∧ h ≤ N ∧ p.free[h - 1]? = some false)) ∧
    ((1 ≤ h ∧ h ≤ N ∧ p.free[h - 1]? = some false) → p.get h = p.items[h - 1]?) ∧
    (¬(1 ≤ h ∧ h ≤ N ∧ p.free[h - 1]? = some false) → p.get h = none) ∧
    p.get_mut h = p.get h := by
  refine ⟨get_isSome_iff hwf h, fun hc => get_eq_of_valid p hc, fun hc => ?_, rfl⟩
  unfold StaticPool.get
  rw [if_neg (fun hcc => hc ⟨hcc.1, hcc.2.1, hcc.2.2⟩)]

/-- Witness for C4: a freshly built pool of size 2 at handle 0 and handle 1. -/
theorem C4_handle_validity_witness :
    (StaticPool.new Nat 2).WF ∧
      (¬(1 ≤ 0 ∧ 0 ≤ 2 ∧ (StaticPool.new Nat 2).free[0 - 1]? = some false) →
        (StaticPool.new Nat 2).get 0 = none) :=
  ⟨by decide, (C4_handle_validity (StaticPool.new Nat 2) (by decide) 0).2.2.1⟩

/-- A `release` whose inner guard fails (the slot is not currently
occupied) leaves the state unchanged. -/
theorem release_of_flag_not_false {T : Type} {N : Nat} {p : StaticPool T N}
    {h : Nat} (hflag : ¬p.free[h - 1]? = some false) : p.release h = p := by
  unfold StaticPool.release
  rw [if_neg hflag]
  split <;> rfl

/-- `release` preserves the length of the flag array. -/
theorem release_free_length {T : Type} {N : Nat} (p : StaticPool T N)
    (h : Nat) : (p.release h).free.length = p.free.length := by
  unfold StaticPool.release
  split
  · split
    · exact List.length_set p.free (h - 1) true
    · rfl
  · rfl

/-- C5: immediately after `free(h)` (embedded as `release h`), both
`get h` and `get_mut h` return `none`. -/
theorem C5_freed_handle_invalid {T : Type} {N : Nat} (p : StaticPool T N)
    (h : Nat) : (p.release h).get h = none ∧ (p.release h).get_mut h = none := by
  have hg : (p.release h).get h = none := by
    unfold StaticPool.get
    rw [if_neg ?hc]
    case hc =>
      rintro ⟨hpos, hle, hflag⟩
      by_cases hlt : h - 1 < p.free.length
      · rw [release_flag_self hpos hle hlt] at hflag
        cases hflag
      · rw [List.getElem?_eq_none_iff.mpr
          (by rw [release_free_length]; omega)] at hflag
        cases hflag
  exact ⟨hg, hg⟩

/-- C6: `free(h)` (embedded as `release h`) is idempotent, and double-free
never faults: releasing twice gives exactly the state after releasing once. -/
theorem C6_release_idempotent {T : Type} {N : Nat} (p : StaticPool T N)
    (h : Nat) : (p.release h).release h = p.release h := by
  cases hflag : p.free[h - 1]? with
  | none =>
    have e1 : p.release h = p := release_of_flag_not_false (by rw [hflag]; simp)
    rw [e1]
    exact e1
  | some b =>
    cases b with
    | true =>
      have e1 : p.release h = p := release_of_flag_not_false (by rw [hflag]; simp)
      rw [e1]
      exact e1
    | false =>
      by_cases hr : h > 0 ∧ h ≤ N
      · have hlt : h - 1 < p.free.length := by
          by_contra hc
          rw [List.getElem?_eq_none_iff.mpr (by omega)] at hflag
          cases hflag
        have e1 : p.release h = { p with free := p.free.set (h - 1) true } := by
          unfold StaticPool.release
          rw [if_pos hr, hflag, if_pos rfl]
        rw [e1]
        refine release_of_flag_not_false ?_
        show ¬(p.free.set (h - 1) true)[h - 1]? = some false
        rw [List.getElem?_set_self hlt]
        simp
      · rw [release_out_of_range _ hr, release_out_of_range _ hr]

/-- C7: `release` never modifies the `items` array or `len`; an
out-of-range handle leaves the whole state unchanged; and the flag of every
slot other than `h - 1` is unchanged. -/
theorem C7_release_frame {T : Type} {N : Nat} (p : StaticPool T N) (h : Nat) :
    (p.release h).items = p.items ∧ (p.release h).len = p.len ∧
    ((h < 1 ∨ h > N) → p.release h = p) ∧
    (∀ j, j ≠ h - 1 → (p.release h).free[j]? = p.free[j]?) :=
  ⟨(release_items_len p h).1, (release_items_len p h).2,
   fun hout => release_out_of_range p (by omega),
   fun _ hj => release_flag_ne p h hj⟩

/-- Witness for C7: releasing the out-of-range handle 0 on a fresh pool of
size 2 is the identity. -/
theorem C7_release_frame_witness :
    ((0 : Nat) < 1 ∨ (0 : Nat) > 2) ∧
      (StaticPool.new Nat 2).release 0 = StaticPool.new Nat 2 :=
  ⟨Or.inl (by decide),
   (C7_release_frame (StaticPool.new Nat 2) 0).2.2.1 (Or.inl (by decide))⟩

/-- Writing `v` through `get_mut h` on a valid occupied handle makes
`get h` return `v`. -/
theorem write_get_self {T : Type} {N : Nat} {p : StaticPool T N}
    (hwf : p.WF) {h : Nat} (hocc : (p.get_mut h).isSome = true) (v : T) :
    (p.write h v).get h = some v := by
  obtain ⟨h1, h2, h3⟩ : 1 ≤ h ∧ h ≤ N ∧ p.free[h - 1]? = some false :=
    (get_isSome_iff hwf h).mp hocc
  have e : p.write h v = { p with items := p.items.set (h - 1) v } := by
    unfold StaticPool.write
    rw [if_pos hocc]
  rw [e, get_eq_of_valid ({ p with items := p.items.set (h - 1) v })
    ⟨h1, h2, h3⟩]
  show (p.items.set (h - 1) v)[h - 1]? = some v
  exact List.getElem?_set_self (by rw [hwf.1]; omega)

/-- One step of frame preservation: any operation that is neither
`release h` nor a write through handle `h` keeps `get h` unchanged (and
keeps the state well-formed). -/
theorem get_preserved_op {T : Type} [Inhabited T] {N : Nat}
    {p : StaticPool T N} (hwf : p.WF) {h : Nat} {v : T}
    (hget : p.get h = some v) (op : Op T)
    (hop : op ≠ Op.release h ∧ ∀ w, op ≠ Op.write h w) :
    (applyOp p op).WF ∧ (applyOp p op).get h = some v := by
  obtain ⟨h1, h2, h3, h4⟩ := get_some_inv hget
  cases op with
  | alloc =>
    refine ⟨alloc_WF hwf, ?_⟩
    show ((p.alloc).2).get h = some v
    cases hfst : (p.alloc).1 with
    | none =>
      rw [(alloc_none_spec hfst).1]
      exact hget
    | some hh =>
      obtain ⟨g1, g2, g3, g4, g5⟩ := alloc_some_spec hfst
      have hne : hh - 1 ≠ h - 1 := by
        intro he
        rw [he, h3] at g3
        cases g3
      have hfree2 : ((p.alloc).2).free[h - 1]? = some false := by
        rw [g5]
        show (p.free.set (hh - 1) false)[h - 1]? = some false
        rw [List.getElem?_set_ne hne]
        exact h3
      rw [get_eq_of_valid _ ⟨h1, h2, hfree2⟩, g5]
      show (p.items.set (hh - 1) default)[h - 1]? = some v
      rw [List.getElem?_set_ne hne]
      exact h4
  | release k =>
    have hkh : k ≠ h := fun he => hop.1 (by rw [he])
    refine ⟨release_WF hwf k, ?_⟩
    show (p.release k).get h = some v
    have hfree2 : (p.release k).free[h - 1]? = some false := by
      by_cases hkr : k > 0 ∧ k ≤ N
      · rw [release_flag_ne p k (by omega)]
        exact h3
      · rw [release_out_of_range p hkr]
        exact h3
    rw [get_eq_of_valid _ ⟨h1, h2, hfree2⟩, (release_items_len p k).1]
    exact h4
  | write k w =>
    have hkh : k ≠ h := fun he => hop.2 w (by rw [he])
    refine ⟨write_WF hwf k w, ?_⟩
    show (p.write k w).get h = some v
    have hfree2 : (p.write k w).free[h - 1]? = some false := by
      rw [(write_free_len p k w).1]
      exact h3
    rw [get_eq_of_valid _ ⟨h1, h2, hfree2⟩]
    by_cases hsome : (p.get_mut k).isSome = true
    · have hk1 : 1 ≤ k := ((get_isSome_iff hwf k).mp hsome).1
      rw [write_item_ne p k w (by omega)]
      exact h4
    · have e : p.write k w = p := by
        unfold StaticPool.write
        rw [if_neg hsome]
      rw [e]
      exact h4

/-- Frame preservation over a whole sequence of operations avoiding
handle `h`. -/
theorem get_preserved_ops {T : Type} [Inhabited T] {N : Nat} {h : Nat}
    {v : T} :
    ∀ (ops : List (Op T)) (p : StaticPool T N), p.WF → p.get h = some v →
      (∀ op ∈ ops, op ≠ Op.release h ∧ ∀ w, op ≠ Op.write h w) →
      (applyOps p ops).get h = some v
  | [], _, _, hget, _ => hget
  | op :: rest, p, hwf, hget, hops => by
    obtain ⟨hwf', hget'⟩ :=
      get_preserved_op hwf hget op (hops op (List.mem_cons_self op rest))
    exact get_preserved_ops rest (applyOp p op) hwf' hget'
      (fun o ho => hops o (List.mem_cons_of_mem op ho))

/-- C8: on a valid occupied handle `h`, after writing `v` through
`get_mut h`, `get h` returns `v`, and keeps returning `v` across any
further operations none of which is `release h` or a write through `h`
(taking the empty sequence gives the immediate read-back). -/
theorem C8_read_write_consistency {T : Type} [Inhabited T] {N : Nat}
    (p : StaticPool T N) (hwf : p.WF) (h : Nat) (v : T)
    (hocc : (p.get_mut h).isSome = true) (ops : List (Op T))
    (hops : ∀ op ∈ ops, op ≠ Op.release h ∧ ∀ w, op ≠ Op.write h w) :
    (applyOps (p.write h v) ops).get h = some v :=
  get_preserved_ops ops (p.write h v) (write_WF hwf h v)
    (write_get_self hwf hocc v) hops

/-- Witness for C8: allocate in a fresh pool of size 2, write 42 through
handle 1, run one more allocation, then read handle 1 back. -/
theorem C8_read_write_consistency_witness :
    (((StaticPool.new Nat 2).alloc).2.WF ∧
      ((((StaticPool.new Nat 2).alloc).2).get_mut 1).isSome = true) ∧
      (applyOps ((((StaticPool.new Nat 2).alloc).2).write 1 42)
        [Op.alloc]).get 1 = some 42 :=
  ⟨⟨by decide, by decide⟩,
   C8_read_write_consistency _ (by decide) 1 42 (by decide) [Op.alloc]
     (fun op hop => by
       rw [List.mem_singleton] at hop
       subst hop
       exact ⟨fun hc => Op.noConfusion hc, fun w hc => Op.noConfusion hc⟩)⟩

/-- `alloc` never changes the `len` counter. -/
theorem alloc_len {T : Type} [Inhabited T] {N : Nat} (p : StaticPool T N) :
    ((p.alloc).2).len = p.len := by
  cases hfst : (p.alloc).1 with
  | none => rw [(alloc_none_spec hfst).1]
  | some h => rw [(alloc_some_spec hfst).2.2.2.2]

/-- C9: the `len` counter starts at 0 in `new`, is changed by none of the
operations, and hence is 0 in every reachable pool state, however many
slots are occupied. -/
theorem C9_len_counter {T : Type} [Inhabited T] {N : Nat} :
    (StaticPool.new T N).len = 0 ∧
    (∀ p : StaticPool T N, ((p.alloc).2).len = p.len) ∧
    (∀ (p : StaticPool T N) (h : Nat), (p.release h).len = p.len) ∧
    (∀ p : StaticPool T N, Reachable p → p.len = 0) := by
  refine ⟨rfl, alloc_len, fun p h => (release_items_len p h).2, ?_⟩
  intro p hr
  induction hr with
  | new => rfl
  | alloc _ ih => rw [alloc_len]; exact ih
  | release h _ ih => rw [(release_items_len _ h).2]; exact ih
  | write h v _ ih => rw [(write_free_len _ h v).2]; exact ih

/-- Witness for C9: the reachable state after one allocation still has
`len = 0`. -/
theorem C9_len_counter_witness :
    ((StaticPool.new Nat 2).alloc).2.len = 0 :=
  C9_len_counter.2.2.2 _ (Reachable.alloc Reachable.new)

/-- C10: a successful `alloc` returning handle `h` changes only slot
`h - 1`'s item and flag — every other slot's item and flag, and `len`, are
unchanged — and a failed `alloc` leaves the whole state unchanged. -/
theorem C10_alloc_frame {T : Type} [Inhabited T] {N : Nat}
    (p : StaticPool T N) :
    ((p.alloc).2).len = p.len ∧
    ((p.alloc).1 = none → (p.alloc).2 = p) ∧
    (∀ h, (p.alloc).1 = some h → ∀ j, j ≠ h - 1 →
      ((p.alloc).2).items[j]? = p.items[j]? ∧
      ((p.alloc).2).free[j]? = p.free[j]?) := by
  refine ⟨alloc_len p, fun hn => (alloc_none_spec hn).1, ?_⟩
  intro h hs j hj
  obtain ⟨-, -, -, -, h5⟩ := alloc_some_spec hs
  rw [h5]
  constructor
  · show (p.items.set (h - 1) default)[j]? = p.items[j]?
    exact List.getElem?_set_ne (fun he => hj he.symm)
  · show (p.free.set (h - 1) false)[j]? = p.free[j]?
    exact List.getElem?_set_ne (fun he => hj he.symm)

/-- Witness for C10: a failed allocation on the full pool of size 2 leaves
the state unchanged. -/
theorem C10_alloc_frame_witness :
    ((iterAlloc 2 (StaticPool.new Nat 2)).alloc).1 = none ∧
      ((iterAlloc 2 (StaticPool.new Nat 2)).alloc).2 =
        iterAlloc 2 (StaticPool.new Nat 2) :=
  ⟨by decide, (C10_alloc_frame _).2.1 (by decide)⟩

example : ((StaticPool.new Nat 4).alloc).1 = some 1 := by decide
example : (iterAlloc 4 (StaticPool.new Nat 4)).alloc.1 = none := by decide
example : ((iterAlloc 4 (StaticPool.new Nat 4)).release 2).alloc.1 = some 2 := by decide
example : (((StaticPool.new Nat 4).alloc).2.write 1 100).get 1 = some 100 := by decide
example : ((((StaticPool.new Nat 4).alloc).2.write 1 100).release 1).get 1 = none := by decide
